import Mathlib

/-!
Verification of the symbol-resolution core of the Mach-O linker
(`lld/MachO/SymbolTable.cpp` and `SymbolTable.h`).

The C++ source is shallowly embedded: each symbol variant becomes a
constructor of an inductive type, the symbol-table slot for one name is an
`Option Symb`, and the side effects that the claims talk about (the duplicate
diagnostic pool, the archive fetch log, the dylib unreference counter) are
threaded through an explicit `LinkState`.  Machine integers are modelled as
`Nat` (priorities are 24-bit by the rank layout; no arithmetic overflows).
A null-pointer dereference in the source is modelled by the distinguished
result `AddRes.nullDeref`.
-/

/-- Kind of an input file, mirroring the `isa<...>` dispatch used in the
source (`ObjFile`, `DylibFile`, `ArchiveFile`, `BitcodeFile`). -/
inductive FileKind where
  | obj
  | dylib
  | archive
  | bitcode
deriving DecidableEq, Repr

/-- The opaque `InputFile` handle: identity (`fid`, used by `toString`),
kind, command-line `priority` (lower binds earlier), and the
`lazyArchiveMember` flag. -/
structure InputFile where
  fid : Nat
  kind : FileKind
  priority : Nat
  lazyArchiveMember : Bool
deriving DecidableEq, Repr

/-- An input section; `sid` is its identity, used to render source
locations. -/
structure InputSec where
  sid : Nat
deriving DecidableEq, Repr

/-- `RefState`: the strongest reference observed, ordered
`unreferenced < weak < strong`. -/
inductive RefState where
  | unreferenced
  | weak
  | strong
deriving DecidableEq, Repr

def RefState.toNat : RefState → Nat
  | .unreferenced => 0
  | .weak => 1
  | .strong => 2

/-- `std::max` on `RefState` via the enum order. -/
def maxRef (a b : RefState) : RefState :=
  if a.toNat < b.toNat then b else a

/-- The payload of a `Defined` symbol (file, optional section + offset,
size, and the flag set from the source). -/
structure DefinedSym where
  file : Option InputFile
  isec : Option InputSec
  value : Nat
  size : Nat
  weakDef : Bool
  isExternal : Bool
  privateExtern : Bool
  includeInSymtab : Bool
  thumb : Bool
  referencedDynamically : Bool
  noDeadStrip : Bool
  overridesWeakDef : Bool
  weakDefCanBeHidden : Bool
  interposable : Bool
deriving DecidableEq, Repr

/-- The payload of an `Undefined` symbol. -/
structure UndefinedSym where
  file : Option InputFile
  refState : RefState
  wasBitcodeSymbol : Bool
deriving DecidableEq, Repr

/-- The payload of a `CommonSymbol`.  Its owning file is always non-null in
the source (commons are only created by `addCommon`, which dereferences the
file), so it is stored as a plain `InputFile`. -/
structure CommonSym where
  file : InputFile
  size : Nat
  align : Nat
  privateExtern : Bool
deriving DecidableEq, Repr

/-- The payload of a `DylibSymbol`; a `none` file means dynamic lookup. -/
structure DylibSym where
  file : Option InputFile
  weakDef : Bool
  refState : RefState
  isTlv : Bool
deriving DecidableEq, Repr

/-- A symbol-table slot variant, the tagged-union view of the source's
`Symbol` class hierarchy. -/
inductive Symb where
  | defined : DefinedSym → Symb
  | undefinedS : UndefinedSym → Symb
  | common : CommonSym → Symb
  | dylib : DylibSym → Symb
  | lazyArchive : Nat → Nat → Symb
  | lazyObject : Nat → Symb
deriving DecidableEq, Repr

/-- One record of the duplicate-symbol diagnostic pool: both source
locations (section identity paired with offset; `none` renders as the empty
string) and both file names (`none` renders as the internal placeholder),
plus the existing `Defined` the record points at. -/
structure DupRec where
  loc1 : Option (Nat × Nat)
  file1 : Option Nat
  loc2 : Option (Nat × Nat)
  file2 : Option Nat
  sym : DefinedSym
deriving DecidableEq, Repr

/-- The state touched by the resolver for a single name: the slot, the
duplicate-diagnostic pool, the log of `FetchArchiveMember` calls (archive
identity, cookie), and the number of dylib `unreference` calls. -/
structure LinkState where
  slot : Option Symb
  dupDiags : List DupRec
  fetches : List (Nat × Nat)
  unrefs : Nat
deriving DecidableEq, Repr

/-- The empty link state: name not yet mentioned, all pools empty. -/
def emptyState : LinkState :=
  { slot := none, dupDiags := [], fetches := [], unrefs := 0 }

/-- The frozen configuration snapshot, restricted to the fields the
resolver reads. -/
structure Config where
  namespaceFlat : Bool
  outputIsExec : Bool
  deadStripDuplicates : Bool
deriving DecidableEq, Repr

/-- Result of `addDefined`: either `ok ret st` where `ret` is the returned
`Defined*` (`none` models a returned null pointer) and `st` the updated
state, or `nullDeref`, modelling a read through a null file pointer. -/
inductive AddRes where
  | ok : Option DefinedSym → LinkState → AddRes
  | nullDeref : AddRes
deriving DecidableEq, Repr

/-- `getRank` from `SymbolTable.cpp`: the precedence rank of a candidate
definition; lower wins.  Null file is the synthetic case; then commons,
split by laziness; then dylib-or-lazy, split by weakness; then regular,
split by weakness.  The file priority sits in the low 24 bits. -/
def getRank (file : Option InputFile) (isCommon isWeak : Bool) : Nat :=
  match file with
  | none => 7 <<< 24
  | some f =>
    if isCommon then
      if f.lazyArchiveMember then (6 <<< 24) + f.priority
      else (5 <<< 24) + f.priority
    else if f.kind = FileKind.dylib ∨ f.lazyArchiveMember then
      if isWeak then (4 <<< 24) + f.priority
      else (3 <<< 24) + f.priority
    else if isWeak then (2 <<< 24) + f.priority
    else (1 <<< 24) + f.priority

/-- The rank table exactly as the specification words it, written as a
flat case list to be compared with `getRank`. -/
def rankSpec (file : Option InputFile) (isCommon isWeak : Bool) : Nat :=
  match file with
  | none => 7 <<< 24
  | some f =>
    if isCommon ∧ f.lazyArchiveMember then (6 <<< 24) + f.priority
    else if isCommon ∧ ¬f.lazyArchiveMember then (5 <<< 24) + f.priority
    else if (f.kind = FileKind.dylib ∨ f.lazyArchiveMember) ∧ isWeak then
      (4 <<< 24) + f.priority
    else if (f.kind = FileKind.dylib ∨ f.lazyArchiveMember) ∧ ¬isWeak then
      (3 <<< 24) + f.priority
    else if isWeak then (2 <<< 24) + f.priority
    else (1 <<< 24) + f.priority

/-- The high byte of the rank (the precedence class). -/
def rankClass (file : Option InputFile) (isCommon isWeak : Bool) : Nat :=
  match file with
  | none => 7
  | some f =>
    if isCommon then
      if f.lazyArchiveMember then 6 else 5
    else if f.kind = FileKind.dylib ∨ f.lazyArchiveMember then
      if isWeak then 4 else 3
    else if isWeak then 2 else 1

/-- The priority component carried in the low bytes of the rank. -/
def prioPart (file : Option InputFile) : Nat :=
  match file with
  | none => 0
  | some f => f.priority

/-- `true` when the (possibly null) incoming file is a lazy archive member;
mirrors the guard `file && file->lazyArchiveMember.load(...)`. -/
def isLazyFile : Option InputFile → Bool
  | none => false
  | some f => f.lazyArchiveMember

/-- Modelled from the spec: `SourceLocation(section, offset)` is an external
contract producing a diagnostic string (possibly empty); a location is
rendered here as the section identity paired with the offset, `none` when
the symbol has no section (the empty string case). -/
def sectionSrcLoc (isec : Option InputSec) (value : Nat) : Option (Nat × Nat) :=
  isec.map (fun i => (i.sid, value))

/-- Modelled from the spec: `Defined::getSourceLocation()` renders the
location of an existing definition from its section and value. -/
def definedSrcLoc (d : DefinedSym) : Option (Nat × Nat) :=
  sectionSrcLoc d.isec d.value

/-- `toString(InputFile *)`: the file name, or `none` for the internal
placeholder printed for a null file. -/
def fileName (file : Option InputFile) : Option Nat :=
  file.map (fun f => f.fid)

/-- The duplicate record pushed by `addDefined`: existing definition's
location and file, incoming location (`isec ? isec->getSourceLocation(value)
: ""`) and file, and the existing `Defined`. -/
def mkDupRec (d : DefinedSym) (isec : Option InputSec) (value : Nat)
    (file : Option InputFile) : DupRec :=
  { loc1 := definedSrcLoc d, file1 := fileName d.file,
    loc2 := sectionSrcLoc isec value, file2 := fileName file, sym := d }

/-- The `Defined` built by the `replaceSymbol<Defined>` calls in
`addDefined`: `isExternal` and `includeInSymtab` are hard-coded `true`, and
`interposable = (namespace = flat ∧ outputType ≠ executable ∧
¬privateExtern)`. -/
def mkDefined (cfg : Config) (file : Option InputFile) (isec : Option InputSec)
    (value size : Nat)
    (isWeakDef isPrivateExtern isThumb isReferencedDynamically noDeadStrip
      isWeakDefCanBeHidden overridesWeakDef : Bool) : DefinedSym :=
  { file := file, isec := isec, value := value, size := size,
    weakDef := isWeakDef, isExternal := true,
    privateExtern := isPrivateExtern, includeInSymtab := true,
    thumb := isThumb, referencedDynamically := isReferencedDynamically,
    noDeadStrip := noDeadStrip, overridesWeakDef := overridesWeakDef,
    weakDefCanBeHidden := isWeakDefCanBeHidden,
    interposable := cfg.namespaceFlat && !cfg.outputIsExec && !isPrivateExtern }

/-- The final `replaceSymbol<Defined>` of `addDefined`: overwrite the slot
in place and return the new `Defined`. -/
def finishReplace (cfg : Config) (st : LinkState) (file : Option InputFile)
    (isec : Option InputSec) (value size : Nat)
    (isWeakDef isPrivateExtern isThumb isReferencedDynamically noDeadStrip
      isWeakDefCanBeHidden overridesWeakDef : Bool) : AddRes :=
  let nd := mkDefined cfg file isec value size isWeakDef isPrivateExtern
    isThumb isReferencedDynamically noDeadStrip isWeakDefCanBeHidden
    overridesWeakDef
  .ok (some nd) { st with slot := some (.defined nd) }

/-- `SymbolTable::addDefined`, embedded branch by branch from the source.
The duplicate path appends its record and then falls through to the final
`replaceSymbol`, as in the source.  Reads of `file->lazyArchiveMember` or
`isa<BitcodeFile>(defined->getFile())` through a null pointer yield
`nullDeref`. -/
def addDefined (cfg : Config) (st : LinkState) (file : Option InputFile)
    (isec : Option InputSec) (value size : Nat)
    (isWeakDef isPrivateExtern isThumb isReferencedDynamically noDeadStrip
      isWeakDefCanBeHidden : Bool) : AddRes :=
  match st.slot with
  | none =>
    finishReplace cfg st file isec value size isWeakDef isPrivateExtern
      isThumb isReferencedDynamically noDeadStrip isWeakDefCanBeHidden false
  | some (.defined d) =>
    if isWeakDef then
      if getRank file false isWeakDef < getRank d.file false d.weakDef then
        finishReplace cfg st file isec value size isWeakDef isPrivateExtern
          isThumb isReferencedDynamically noDeadStrip isWeakDefCanBeHidden
          false
      else if d.weakDef then
        let d' := { d with
          privateExtern := d.privateExtern && isPrivateExtern,
          weakDefCanBeHidden := d.weakDefCanBeHidden && isWeakDefCanBeHidden,
          referencedDynamically :=
            d.referencedDynamically || isReferencedDynamically,
          noDeadStrip := d.noDeadStrip || noDeadStrip }
        .ok (some d') { st with slot := some (.defined d') }
      else .ok (some d) st
    else if d.weakDef then
      finishReplace cfg st file isec value size isWeakDef isPrivateExtern
        isThumb isReferencedDynamically noDeadStrip isWeakDefCanBeHidden false
    else
      match file with
      | some f =>
        if f.lazyArchiveMember then
          match d.file with
          | none => .nullDeref
          | some df =>
            if df.kind ≠ FileKind.bitcode then
              if df.lazyArchiveMember then
                if f.priority < df.priority then .ok (some d) st
                else
                  finishReplace cfg st file isec value size isWeakDef
                    isPrivateExtern isThumb isReferencedDynamically
                    noDeadStrip isWeakDefCanBeHidden false
              else .ok (some d) st
            else
              finishReplace cfg st file isec value size isWeakDef
                isPrivateExtern isThumb isReferencedDynamically noDeadStrip
                isWeakDefCanBeHidden false
        else
          finishReplace cfg
            { st with
                dupDiags := st.dupDiags ++ [mkDupRec d isec value file] }
            file isec value size isWeakDef isPrivateExtern isThumb
            isReferencedDynamically noDeadStrip isWeakDefCanBeHidden false
      | none =>
        finishReplace cfg
          { st with dupDiags := st.dupDiags ++ [mkDupRec d isec value file] }
          file isec value size isWeakDef isPrivateExtern isThumb
          isReferencedDynamically noDeadStrip isWeakDefCanBeHidden false
  | some (.dylib dy) =>
    match file with
    | none => .nullDeref
    | some f =>
      if f.lazyArchiveMember then .ok none st
      else
        finishReplace cfg { st with unrefs := st.unrefs + 1 } file isec value
          size isWeakDef isPrivateExtern isThumb isReferencedDynamically
          noDeadStrip isWeakDefCanBeHidden (!isWeakDef && dy.weakDef)
  | some (.undefinedS u) =>
    finishReplace cfg st (if u.wasBitcodeSymbol then u.file else file) isec
      value size isWeakDef isPrivateExtern isThumb isReferencedDynamically
      noDeadStrip isWeakDefCanBeHidden false
  | some (.common c) =>
    if c.file.lazyArchiveMember then
      match file with
      | none => .nullDeref
      | some f =>
        if f.lazyArchiveMember && decide (f.priority < c.file.priority) then
          .ok none st
        else
          finishReplace cfg st file isec value size isWeakDef isPrivateExtern
            isThumb isReferencedDynamically noDeadStrip isWeakDefCanBeHidden
            false
    else
      finishReplace cfg st file isec value size isWeakDef isPrivateExtern
        isThumb isReferencedDynamically noDeadStrip isWeakDefCanBeHidden false
  | some (.lazyArchive _ _) =>
    finishReplace cfg st file isec value size isWeakDef isPrivateExtern
      isThumb isReferencedDynamically noDeadStrip isWeakDefCanBeHidden false
  | some (.lazyObject _) =>
    finishReplace cfg st file isec value size isWeakDef isPrivateExtern
      isThumb isReferencedDynamically noDeadStrip isWeakDefCanBeHidden false

/-- `SymbolTable::addSynthetic`: a wrapper over `addDefined` with a null
file, strong non-thumb definition, size 0; it then stores the caller's
`includeInSymtab` through the returned pointer (a null return would be a
null dereference). -/
def addSynthetic (cfg : Config) (st : LinkState) (isec : Option InputSec)
    (value : Nat) (isPrivateExtern includeInSymtab referencedDynamically :
      Bool) : AddRes :=
  match addDefined cfg st none isec value 0 false isPrivateExtern false
      referencedDynamically false false with
  | .ok (some d) st' =>
    let d' := { d with includeInSymtab := includeInSymtab }
    .ok (some d') { st' with slot := some (.defined d') }
  | .ok none _ => .nullDeref
  | .nullDeref => .nullDeref

/-- `SymbolTable::addUndefined`.  `DylibSymbol::reference` is modelled from
the spec: bump `refState` to the max of old and requested. -/
def addUndefined (st : LinkState) (file : Option InputFile)
    (isWeakRef : Bool) : LinkState :=
  let refState : RefState := if isWeakRef then .weak else .strong
  match st.slot with
  | none =>
    { st with slot := some (.undefinedS
        { file := file, refState := refState, wasBitcodeSymbol := false }) }
  | some (.dylib dy) =>
    { st with slot := some (.dylib
        { dy with refState := maxRef dy.refState refState }) }
  | some (.undefinedS u) =>
    { st with slot := some (.undefinedS
        { u with refState := maxRef u.refState refState }) }
  | some _ => st

/-- `SymbolTable::addLazyArchive`.  `ArchiveFile::fetch` is modelled from
the spec as the external contract `FetchArchiveMember(archive, cookie)`:
the call is appended to the fetch log (the member extraction and the
re-entrant `add*` calls it performs are the hook's own work). -/
def addLazyArchive (st : LinkState) (archive cookie : Nat) : LinkState :=
  match st.slot with
  | none => { st with slot := some (.lazyArchive archive cookie) }
  | some (.undefinedS _) =>
    { st with fetches := st.fetches ++ [(archive, cookie)] }
  | some (.dylib dy) =>
    if dy.weakDef then
      if dy.refState ≠ RefState.unreferenced then
        { st with fetches := st.fetches ++ [(archive, cookie)] }
      else { st with slot := some (.lazyArchive archive cookie) }
    else st
  | some _ => st

/-- `macho::reportPendingDuplicateSymbols`: walk the pool and emit one
warning per record, skipping records whose symbol is not live when
`deadStripDuplicates` is set.  `IsLive` is the external liveness query.
The emitted diagnostics are returned as the list of records reported, the
second component is the pool afterwards — the source does not clear it. -/
def reportPendingDuplicateSymbols (cfg : Config)
    (isLive : DefinedSym → Bool) (pool : List DupRec) :
    List DupRec × List DupRec :=
  (pool.filter (fun r => !cfg.deadStripDuplicates || isLive r.sym), pool)

/-- The per-undefined reference lists accumulated by
`treatUndefinedSymbol`. -/
structure UndefDiag where
  codeReferences : List (Nat × Nat)
  otherReferences : List Nat
deriving DecidableEq, Repr

/-- `macho::reportPendingUndefinedSymbols`: emit one diagnostic per pooled
undefined (spell correction enabled for the first two), then clear the
pool.  Emission is modelled as the list of `(symbol, references,
correctSpelling)` triples passed to `reportUndefinedSymbol`. -/
def reportPendingUndefinedSymbols
    (undefs : List (UndefinedSym × UndefDiag)) :
    List (UndefinedSym × UndefDiag × Bool) ×
      List (UndefinedSym × UndefDiag) :=
  (undefs.enum.map (fun p => (p.2.1, p.2.2, decide (p.1 < 2))), [])

/-- Symbol names are opaque byte strings. -/
def Name : Type := List Nat

instance : DecidableEq Name := by
  unfold Name
  infer_instance

/-- Whether a slot variant is `Undefined` (`dyn_cast<Undefined>` test). -/
def isUndef : Symb → Bool
  | .undefinedS _ => true
  | _ => false

/-- A symbol qualifies for the file-local map of `getAlternativeSpelling`
when it is a non-external `Defined`. -/
def isLocalDefined : Symb → Bool
  | .defined d => !d.isExternal
  | _ => false

/-- First-match lookup in an association list, the model of both the local
`DenseMap` (`try_emplace` keeps the first entry) and `symtab->find`. -/
def lookupName (m : List (Name × Symb)) (n : Name) : Option Symb :=
  (m.find? (fun p => p.1 = n)).map (fun p => p.2)

/-- The `suggest` lambda: a candidate qualifies if it is in the local map,
or is in the global table with a variant other than `Undefined`. -/
def suggest (m table : List (Name × Symb)) (n : Name) : Option Symb :=
  match lookupName m n with
  | some s => some s
  | none =>
    match lookupName table n with
    | some s => if isUndef s then none else some s
    | none => none

/-- The candidate character set `'0'..='z'` of the Levenshtein scan, as
bytes 48..122. -/
def charset : List Nat := List.range' 48 75

/-- The Levenshtein-distance-1 candidates tried at index `i`, in source
order: insertion before `name[i]` over the charset; then, unless `i` is at
the end, substitution of `name[i]` over the charset, the transposition of
`name[i]` and `name[i+1]`, and the deletion of `name[i]`. -/
def levCandidatesAt (name : Name) (i : Nat) : List Name :=
  let ins := charset.map (fun c => name.take i ++ c :: name.drop i)
  if i = name.length then ins
  else
    ins ++
    charset.map (fun c => name.take i ++ c :: name.drop (i + 1)) ++
    (if i + 1 < name.length then
      [name.take i ++ name.getD (i + 1) 0 :: name.getD i 0 ::
        name.drop (i + 2)]
    else []) ++
    [name.take i ++ name.drop (i + 1)]

/-- All candidates of the Levenshtein loop, for `i = 0 .. name.length`. -/
def levCandidates (name : Name) : List Name :=
  (List.range (name.length + 1)).flatMap (levCandidatesAt name)

/-- ASCII lower-casing of one byte, for `equals_insensitive`. -/
def lowerByte (b : Nat) : Nat :=
  if 65 ≤ b ∧ b ≤ 90 then b + 32 else b

/-- `StringRef::equals_insensitive`. -/
def eqInsensitive (a b : Name) : Bool :=
  a.map lowerByte = b.map lowerByte

/-- Modelled from the spec: `llvm::ItaniumPartialDemangler` composed with
`getFunctionName` (the demangler itself is outside the captured source).
The model covers the Itanium mangling of a nullary function with the
Mach-O leading underscore, `__Z<len><name>v`, and returns the undecorated
function name. -/
def demangledFunctionName (n : Name) : Option Name :=
  match n with
  | 95 :: 95 :: 90 :: rest =>
    let digits := rest.takeWhile (fun b => 48 ≤ b ∧ b ≤ 57)
    let tail := rest.dropWhile (fun b => 48 ≤ b ∧ b ≤ 57)
    if digits.isEmpty then none
    else
      let len := digits.foldl (fun a d => a * 10 + (d - 48)) 0
      if (tail.take len).length = len ∧ tail.drop len = [118] then
        some (tail.take len)
      else none
  | _ => none

/-- `canSuggestExternCForCXX`: the definition name demangles to exactly the
reference name. -/
def canSuggestCForCXX (ref def_ : Name) : Bool :=
  demangledFunctionName def_ = some ref

/-- The hint decoration attached to a suggestion (`pre_hint`/`post_hint`):
no hint, the mangled-reference hint, or the declare-as-C-linkage hint. -/
inductive Hint where
  | plain
  | mangledRef
  | declareC
deriving DecidableEq, Repr

/-- `getAlternativeSpelling`, embedded from the source: the local map of
non-external defined symbols of the reference's file, the Levenshtein-1
scan through `suggest`, the case-insensitive passes over the local map and
the global table, and the two demangling strategies.  `locals` is the
symbol list of the undefined symbol's object file; `table` is the global
symbol table in iteration order. -/
def getAlternativeSpelling (locals table : List (Name × Symb))
    (name : Name) : Option (Symb × Hint) :=
  let m := locals.filter (fun p => isLocalDefined p.2)
  match (levCandidates name).findSome? (fun n => suggest m table n) with
  | some s => some (s, .plain)
  | none =>
  match m.find? (fun p => eqInsensitive name p.1) with
  | some p => some (p.2, .plain)
  | none =>
  match table.find? (fun p => !isUndef p.2 && eqInsensitive name p.1) with
  | some p => some (p.2, .plain)
  | none =>
  if name.take 3 = [95, 95, 90] then
    match demangledFunctionName name with
    | some fn =>
      match suggest m table (95 :: fn) with
      | some s => some (s, .mangledRef)
      | none => none
    | none => none
  else
    let ref := match name with
      | 95 :: rest => rest
      | _ => name
    match m.find? (fun p => canSuggestCForCXX ref p.1) with
    | some p => some (p.2, .declareC)
    | none =>
      match table.find? (fun p => canSuggestCForCXX ref p.1) with
      | some p => some (p.2, .declareC)
      | none => none

/-! ## Concrete fixtures used by witnesses and counterexamples -/

def objA : InputFile := ⟨1, .obj, 1, false⟩

def objB : InputFile := ⟨2, .obj, 2, false⟩

def dylibF : InputFile := ⟨3, .dylib, 1, false⟩

def lazyA : InputFile := ⟨4, .obj, 1, true⟩

def lazyB : InputFile := ⟨5, .obj, 2, true⟩

def bitF : InputFile := ⟨6, .bitcode, 1, false⟩

def cfg0 : Config := ⟨false, true, false⟩

/-- The file owning the slot's definition, when the slot holds a
`Defined`. -/
def slotFile (st : LinkState) : Option InputFile :=
  match st.slot with
  | some (.defined d) => d.file
  | _ => none

/-- The state component of an `AddRes` (`fallback` for the crash case). -/
def stateAfter (r : AddRes) (fallback : LinkState) : LinkState :=
  match r with
  | .ok _ st => st
  | .nullDeref => fallback

/-- The `refState` requested by one `addUndefined` call. -/
def reqState (isWeakRef : Bool) : RefState :=
  if isWeakRef then .weak else .strong

/-- Run a sequence of `addUndefined` calls, each given as
`(file, isWeakRef)`. -/
def runUndefineds (st : LinkState)
    (calls : List (Option InputFile × Bool)) : LinkState :=
  calls.foldl (fun s c => addUndefined s c.1 c.2) st

/-- The maximum of a prior `refState` and all requested states of a call
sequence. -/
def foldReq (r : RefState) (calls : List (Option InputFile × Bool)) :
    RefState :=
  calls.foldl (fun a c => maxRef a (reqState c.2)) r


/-- Section fixtures for concrete scenarios. -/
def sec1 : InputSec := ⟨1⟩

def sec2 : InputSec := ⟨2⟩

/-- A strong definition from `objA` (the F of scenario S2). -/
def dA : DefinedSym :=
  mkDefined cfg0 (some objA) (some sec1) 16 4 false false false false false
    false false

/-- State whose slot holds `dA`. -/
def stA : LinkState := { emptyState with slot := some (.defined dA) }

/-- The S2 run in program order F then G: the second strong `addDefined`
from `objB` against the existing strong `dA`. -/
def c2run : LinkState :=
  stateAfter
    (addDefined cfg0 stA (some objB) (some sec2) 32 4 false false false
      false false false)
    emptyState

/-- A strong definition owned by the lazy archive member `lazyA`
(priority 1). -/
def dLazyA : DefinedSym :=
  mkDefined cfg0 (some lazyA) (some sec1) 0 0 false false false false false
    false false

def stLazyA : LinkState := { emptyState with slot := some (.defined dLazyA) }

/-- Both-lazy contest: incoming strong definition from `lazyB`
(priority 2) against existing `dLazyA` (priority 1). -/
def c3run : LinkState :=
  stateAfter
    (addDefined cfg0 stLazyA (some lazyB) none 0 0 false false false false
      false false)
    emptyState

/-- A strong definition owned by the bitcode file `bitF`. -/
def dBit : DefinedSym :=
  mkDefined cfg0 (some bitF) none 0 0 false false false false false false
    false

def stBit : LinkState := { emptyState with slot := some (.defined dBit) }

/-- Bitcode contest: incoming strong definition from the lazy archive
member `lazyA` against the existing bitcode-owned `dBit`. -/
def c3runBit : LinkState :=
  stateAfter
    (addDefined cfg0 stBit (some lazyA) none 0 0 false false false false
      false false)
    emptyState


/-- Scenario S4 first step: `addLazyArchive("_h", archive 5, cookie 9)` on
a fresh name. -/
def stLA : LinkState := addLazyArchive emptyState 5 9

/-- Scenario S4 second step: `addUndefined("_h", objC, strong)` against the
`LazyArchive` slot. -/
def c4run : LinkState := addUndefined stLA (some objA) false

/-- A weak dylib symbol from `dylibF` (scenario S1's existing symbol). -/
def dyW : DylibSym := ⟨some dylibF, true, .unreferenced, false⟩

def stDy : LinkState := { emptyState with slot := some (.dylib dyW) }

/-- A common symbol owned by the lazy archive member `lazyB`
(priority 2). -/
def cB : CommonSym := ⟨lazyB, 8, 4, false⟩

def stCom : LinkState := { emptyState with slot := some (.common cB) }


/-- A weakly-referenced undefined symbol from `objA`. -/
def u0 : UndefinedSym := ⟨some objA, .weak, false⟩

def stU : LinkState := { emptyState with slot := some (.undefinedS u0) }

/-- A two-call `addUndefined` sequence (weak then strong) and its
reordering. -/
def callsW : List (Option InputFile × Bool) :=
  [(some objA, true), (some objB, false)]

def callsW2 : List (Option InputFile × Bool) :=
  [(some objB, false), (some objA, true)]

/-- A concrete duplicate record, and the always-true liveness query. -/
def dupRec0 : DupRec := mkDupRec dA (some sec2) 32 (some objB)

def alwaysLive : DefinedSym → Bool := fun _ => true


/-- The byte string of the mangled name of a nullary function `f` with the
Mach-O leading underscore. -/
def zName : Name := [95, 95, 90, 49, 102, 118]

/-- An undefined global-table entry under that mangled name. -/
def uZ : UndefinedSym := ⟨none, .strong, false⟩

def tableC9 : List (Name × Symb) := [(zName, .undefinedS uZ)]

/-- The reference name, an underscore followed by `f`. -/
def fName : Name := [95, 102]


theorem getRank_eq_rankSpec (file : Option InputFile) (isCommon isWeak : Bool) :
    getRank file isCommon isWeak = rankSpec file isCommon isWeak := by
  cases file with
  | none => rfl
  | some f =>
    simp only [getRank, rankSpec]
    by_cases hc : isCommon = true <;>
      by_cases hl : f.lazyArchiveMember = true <;>
      by_cases hd : f.kind = FileKind.dylib <;>
      by_cases hw : isWeak = true <;>
      simp_all

theorem getRank_decompose (file : Option InputFile) (isCommon isWeak : Bool) :
    getRank file isCommon isWeak =
      (rankClass file isCommon isWeak) * 16777216 + prioPart file := by
  cases file with
  | none =>
    simp only [getRank, rankClass, prioPart]
    omega
  | some f =>
    simp only [getRank, rankClass, prioPart]
    split_ifs <;> omega

theorem lex_of_lt_mul (a b p q : Nat) (hp : p < 16777216) (hq : q < 16777216) :
    a * 16777216 + p < b * 16777216 + q ↔ a < b ∨ (a = b ∧ p < q) := by
  constructor
  · intro h
    rcases Nat.lt_trichotomy a b with h1 | h1 | h1
    · exact Or.inl h1
    · exact Or.inr ⟨h1, by omega⟩
    · exfalso; nlinarith
  · intro h
    rcases h with h | ⟨h1, h2⟩
    · nlinarith
    · omega

/-! ## Claim C1 -/

/-- C1: the rank of a candidate `(file, isCommon, isWeak)` is exactly the
seven-case table of the claim (`getRank` coincides with `rankSpec`, the
table transcribed from the claim); comparison of two non-tie-breaking
candidates is decided by the rank (`rank(A) < rank(B)` iff A's precedence
class is lower, with ties broken by lower file priority in the low bytes,
whenever priorities fit in 24 bits); and in `addDefined`, a weak incoming
candidate wins over an existing `Defined` exactly when its rank is
strictly lower. -/
theorem claim1_rank_function :
    (∀ (file : Option InputFile) (isCommon isWeak : Bool),
      getRank file isCommon isWeak = rankSpec file isCommon isWeak) ∧
    (∀ (fA : Option InputFile) (cA wA : Bool) (fB : Option InputFile)
        (cB wB : Bool),
      prioPart fA < 16777216 → prioPart fB < 16777216 →
      (getRank fA cA wA < getRank fB cB wB ↔
        rankClass fA cA wA < rankClass fB cB wB ∨
        (rankClass fA cA wA = rankClass fB cB wB ∧
          prioPart fA < prioPart fB))) ∧
    (∀ (cfg : Config) (st : LinkState) (d : DefinedSym)
        (file : Option InputFile) (isec : Option InputSec) (value size : Nat)
        (pe th rd nds wh : Bool),
      st.slot = some (.defined d) →
      getRank file false true < getRank d.file false d.weakDef →
      addDefined cfg st file isec value size true pe th rd nds wh =
        finishReplace cfg st file isec value size true pe th rd nds wh
          false) ∧
    (∀ (cfg : Config) (st : LinkState) (d : DefinedSym)
        (file : Option InputFile) (isec : Option InputSec) (value size : Nat)
        (pe th rd nds wh : Bool),
      st.slot = some (.defined d) →
      ¬ getRank file false true < getRank d.file false d.weakDef →
      ∃ d', addDefined cfg st file isec value size true pe th rd nds wh =
          .ok (some d') { st with slot := some (.defined d') } ∧
        d'.file = d.file ∧ d'.isec = d.isec ∧ d'.value = d.value ∧
        d'.size = d.size ∧ d'.weakDef = d.weakDef) := by
  refine ⟨getRank_eq_rankSpec, ?_, ?_, ?_⟩
  · intro fA cA wA fB cB wB hA hB
    rw [getRank_decompose fA cA wA, getRank_decompose fB cB wB]
    exact lex_of_lt_mul _ _ _ _ hA hB
  · intro cfg st d file isec value size pe th rd nds wh hslot hrank
    obtain ⟨sl, dups, fts, unr⟩ := st
    simp only at hslot
    subst hslot
    simp only [addDefined, if_pos hrank, if_true]
  · intro cfg st d file isec value size pe th rd nds wh hslot hrank
    obtain ⟨sl, dups, fts, unr⟩ := st
    simp only at hslot
    subst hslot
    simp only [addDefined, if_neg hrank, if_true]
    by_cases hw : d.weakDef = true
    · rw [if_pos hw]
      refine ⟨_, rfl, rfl, rfl, rfl, rfl, rfl⟩
    · rw [if_neg hw]
      refine ⟨d, rfl, rfl, rfl, rfl, rfl, rfl⟩

/-- Witness for C1: the rank comparison at two concrete regular candidates
of priorities 1 and 2, and the weak-incoming replacement at a concrete
state whose existing definition is weak with a higher rank class. -/
theorem claim1_rank_function_witness :
    (getRank (some objA) false false < getRank (some objB) false false ↔
      rankClass (some objA) false false < rankClass (some objB) false false ∨
      (rankClass (some objA) false false =
          rankClass (some objB) false false ∧
        prioPart (some objA) < prioPart (some objB))) ∧
    addDefined cfg0
        { emptyState with slot := some (.defined (mkDefined cfg0
            (some lazyA) none 0 0 true false false false false false false)) }
        (some objA) none 0 0 true false false false false false =
      finishReplace cfg0
        { emptyState with slot := some (.defined (mkDefined cfg0
            (some lazyA) none 0 0 true false false false false false false)) }
        (some objA) none 0 0 true false false false false false false :=
  ⟨claim1_rank_function.2.1 (some objA) false false (some objB) false false
      (by decide) (by decide),
    claim1_rank_function.2.2.1 cfg0 _ _ (some objA) none 0 0 false false
      false false false rfl (by decide)⟩

/-! ## Claim C2 -/

/-- C2 (amended): when the existing slot holds a strong `Defined` and a
strong definition arrives from a regular (non-lazy, possibly null) file,
exactly one duplicate record containing both source locations and both file
names is appended to the pool — and the slot is then overwritten with the
incoming definition (the later call wins, not the lower-priority file). -/
theorem claim2_duplicate (cfg : Config) (st : LinkState) (d : DefinedSym)
    (file : Option InputFile) (isec : Option InputSec) (value size : Nat)
    (pe th rd nds wh : Bool)
    (hslot : st.slot = some (.defined d)) (hw : d.weakDef = false)
    (hlazy : isLazyFile file = false) :
    addDefined cfg st file isec value size false pe th rd nds wh =
      finishReplace cfg
        { st with dupDiags := st.dupDiags ++ [mkDupRec d isec value file] }
        file isec value size false pe th rd nds wh false := by
  obtain ⟨sl, dups, fts, unr⟩ := st
  simp only at hslot
  subst hslot
  cases file with
  | none => simp [addDefined, hw]
  | some f =>
    simp only [isLazyFile] at hlazy
    simp [addDefined, hw, hlazy]

/-- Witness for C2: the amended behaviour at scenario S2's inputs (existing
strong `dA` from `objA`, incoming strong definition from `objB`). -/
theorem claim2_duplicate_witness :
    addDefined cfg0 stA (some objB) (some sec2) 32 4 false false false
        false false false =
      finishReplace cfg0
        { stA with
            dupDiags := stA.dupDiags ++ [mkDupRec dA (some sec2) 32
              (some objB)] }
        (some objB) (some sec2) 32 4 false false false false false false
        false :=
  claim2_duplicate cfg0 stA dA (some objB) (some sec2) 32 4 false false
    false false false rfl rfl rfl

/-- Counterexample for C2 as stated: running `addDefined` for `objA`
(priority 1) then `objB` (priority 2), both strong, appends exactly one
duplicate record but leaves `objB`'s definition in the slot, not `objA`'s
— the existing strong definition is **not** kept. -/
theorem claim2_counterexample :
    c2run.dupDiags.length = 1 ∧ slotFile c2run = some objB ∧
      ¬ slotFile c2run = some objA := by
  refine ⟨rfl, rfl, ?_⟩
  intro h
  simp only [c2run, stateAfter, addDefined, stA, emptyState] at h
  revert h
  decide

/-! ## Claim C3 -/

/-- C3 (amended): with an existing strong `Defined` and an incoming strong
definition from a lazy archive member, a non-bitcode, non-lazy existing
wins (slot unchanged); when both files are lazy archive members the
**incoming** wins unless its priority is strictly lower (so the
higher-priority file's definition ends up in the slot, ties to the
incoming); and a **bitcode** existing always loses — it is replaced. -/
theorem claim3_lazy_contest (cfg : Config) (st : LinkState) (d : DefinedSym)
    (df f : InputFile) (isec : Option InputSec) (value size : Nat)
    (pe th rd nds wh : Bool)
    (hslot : st.slot = some (.defined d)) (hw : d.weakDef = false)
    (hdf : d.file = some df) (hf : f.lazyArchiveMember = true) :
    (df.kind = FileKind.bitcode →
      addDefined cfg st (some f) isec value size false pe th rd nds wh =
        finishReplace cfg st (some f) isec value size false pe th rd nds wh
          false) ∧
    (df.kind ≠ FileKind.bitcode → df.lazyArchiveMember = true →
      f.priority < df.priority →
      addDefined cfg st (some f) isec value size false pe th rd nds wh =
        .ok (some d) st) ∧
    (df.kind ≠ FileKind.bitcode → df.lazyArchiveMember = true →
      ¬ f.priority < df.priority →
      addDefined cfg st (some f) isec value size false pe th rd nds wh =
        finishReplace cfg st (some f) isec value size false pe th rd nds wh
          false) ∧
    (df.kind ≠ FileKind.bitcode → df.lazyArchiveMember = false →
      addDefined cfg st (some f) isec value size false pe th rd nds wh =
        .ok (some d) st) := by
  obtain ⟨sl, dups, fts, unr⟩ := st
  simp only at hslot
  subst hslot
  refine ⟨?_, ?_, ?_, ?_⟩
  · intro hb
    simp [addDefined, hw, hf, hdf, hb]
  · intro hb hl hp
    simp [addDefined, hw, hf, hdf, hb, hl, hp]
  · intro hb hl hp
    simp [addDefined, hw, hf, hdf, hb, hl, hp]
  · intro hb hl
    simp [addDefined, hw, hf, hdf, hb, hl]

/-- Witness for C3 (amended): with existing `dLazyA` (lazy, priority 1) and
incoming from `lazyB` (lazy, priority 2), the incoming is not
lower-priority, so the slot is replaced by the incoming definition. -/
theorem claim3_lazy_contest_witness :
    addDefined cfg0 stLazyA (some lazyB) none 0 0 false false false false
        false false =
      finishReplace cfg0 stLazyA (some lazyB) none 0 0 false false false
        false false false false :=
  (claim3_lazy_contest cfg0 stLazyA dLazyA lazyA lazyB none 0 0 false false
      false false false rfl rfl rfl rfl).2.2.1
    (by decide) rfl (by decide)

/-- Counterexample for C3 as stated: in the both-lazy contest between the
existing priority-1 `lazyA` definition and the incoming priority-2 `lazyB`
definition, the claim says the lower-priority file (priority 1) wins, but
the slot ends up owned by `lazyB` (priority 2); and a bitcode existing
loses the contest against an incoming lazy archive member instead of never
losing it. -/
theorem claim3_counterexample :
    (slotFile c3run = some lazyB ∧ ¬ slotFile c3run = some lazyA ∧
      lazyB.priority > lazyA.priority) ∧
    (slotFile c3runBit = some lazyA ∧ ¬ slotFile c3runBit = some bitF) := by
  constructor
  · refine ⟨rfl, ?_, by decide⟩
    intro h
    simp only [c3run, stateAfter, addDefined, stLazyA, emptyState] at h
    revert h
    decide
  · refine ⟨rfl, ?_⟩
    intro h
    simp only [c3runBit, stateAfter, addDefined, stBit, emptyState] at h
    revert h
    decide

/-! ## Claim C4 -/

/-- C4 (amended): `addUndefined` on a name whose slot currently holds a
`LazyArchive` performs **no** fetch and leaves the whole link state
unchanged — the slot keeps its `LazyArchive` variant instead of being
fetched and replaced by a `Defined` (only `addLazyArchive` arriving after
an `Undefined` triggers the fetch hook). -/
theorem claim4_no_fetch (st : LinkState) (archive cookie : Nat)
    (file : Option InputFile) (isWeakRef : Bool)
    (hslot : st.slot = some (.lazyArchive archive cookie)) :
    addUndefined st file isWeakRef = st := by
  obtain ⟨sl, dups, fts, unr⟩ := st
  simp only at hslot
  subst hslot
  simp [addUndefined]

/-- Witness for C4 (amended): the S4 sequence at concrete inputs. -/
theorem claim4_no_fetch_witness : addUndefined stLA (some objA) false = stLA :=
  claim4_no_fetch stLA 5 9 (some objA) false rfl

/-- Counterexample for C4 as stated: after `addLazyArchive("_h", 5, 9)`,
the strong `addUndefined` triggers no `FetchArchiveMember` call at all
(the fetch log stays empty, not of length one) and the slot's final
variant is still `LazyArchive`, not `Defined`. -/
theorem claim4_counterexample :
    ¬ c4run.fetches.length = 1 ∧ c4run.slot = some (.lazyArchive 5 9) := by
  constructor
  · intro h
    simp only [c4run, stLA, addUndefined, addLazyArchive, emptyState] at h
    simp at h
  · rfl

/-! ## Claim C5 -/

/-- C5 (amended): with an existing `DylibSymbol` and an incoming definition
from a non-null file that is **not** a lazy archive member, the incoming
wins: the slot is replaced by the new `Defined`, the dylib's reference
count is dropped, `overridesWeakDef` is set exactly when the incoming is
non-weak and the dylib is weak, and no diagnostic is recorded.  When the
incoming file **is** a lazy archive member, the dylib symbol is kept
untouched and a null pointer is returned. -/
theorem claim5_dylib (cfg : Config) (st : LinkState) (dy : DylibSym)
    (f : InputFile) (isec : Option InputSec) (value size : Nat)
    (w pe th rd nds wh : Bool)
    (hslot : st.slot = some (.dylib dy)) :
    (f.lazyArchiveMember = false →
      addDefined cfg st (some f) isec value size w pe th rd nds wh =
        finishReplace cfg { st with unrefs := st.unrefs + 1 } (some f) isec
          value size w pe th rd nds wh (!w && dy.weakDef)) ∧
    (f.lazyArchiveMember = true →
      addDefined cfg st (some f) isec value size w pe th rd nds wh =
        .ok none st) := by
  obtain ⟨sl, dups, fts, unr⟩ := st
  simp only at hslot
  subst hslot
  constructor
  · intro hf
    simp [addDefined, hf]
  · intro hf
    simp [addDefined, hf]

/-- Witness for C5 (amended): scenario S1 — a strong definition from
`objB` against the weak dylib symbol `dyW`; the slot becomes a `Defined`
with `overridesWeakDef = true` and the dylib is unreferenced. -/
theorem claim5_dylib_witness :
    addDefined cfg0 stDy (some objB) (some sec1) 16 4 false false false
        false false false =
      finishReplace cfg0 { stDy with unrefs := stDy.unrefs + 1 } (some objB)
        (some sec1) 16 4 false false false false false false
        (!false && dyW.weakDef) :=
  (claim5_dylib cfg0 stDy dyW objB (some sec1) 16 4 false false false false
      false false rfl).1 rfl

/-- Counterexample for C5 as stated: an incoming definition from the lazy
archive member `lazyA` against the dylib slot does **not** win — the call
returns a null pointer, the slot still holds the dylib symbol, and no
reference count is dropped. -/
theorem claim5_counterexample :
    addDefined cfg0 stDy (some lazyA) none 0 0 false false false false
        false false = .ok none stDy ∧
      stDy.slot = some (.dylib dyW) ∧ stDy.unrefs = 0 := by
  refine ⟨?_, rfl, rfl⟩
  simp [addDefined, stDy, emptyState, lazyA]

/-! ## Claim C6 -/

/-- C6 (amended): with an existing `CommonSymbol`, the incoming `Defined`
wins and a non-null pointer to the new slot is returned **unless** both
the common's file and the incoming file are lazy archive members and the
incoming has strictly lower priority — in that case the `CommonSymbol` is
kept and a **null** pointer is returned. -/
theorem claim6_common (cfg : Config) (st : LinkState) (c : CommonSym)
    (f : InputFile) (isec : Option InputSec) (value size : Nat)
    (w pe th rd nds wh : Bool)
    (hslot : st.slot = some (.common c)) :
    (c.file.lazyArchiveMember = true → f.lazyArchiveMember = true →
      f.priority < c.file.priority →
      addDefined cfg st (some f) isec value size w pe th rd nds wh =
        .ok none st) ∧
    (c.file.lazyArchiveMember = true → f.lazyArchiveMember = true →
      ¬ f.priority < c.file.priority →
      addDefined cfg st (some f) isec value size w pe th rd nds wh =
        finishReplace cfg st (some f) isec value size w pe th rd nds wh
          false) ∧
    (c.file.lazyArchiveMember = true → f.lazyArchiveMember = false →
      addDefined cfg st (some f) isec value size w pe th rd nds wh =
        finishReplace cfg st (some f) isec value size w pe th rd nds wh
          false) ∧
    (c.file.lazyArchiveMember = false →
      addDefined cfg st (some f) isec value size w pe th rd nds wh =
        finishReplace cfg st (some f) isec value size w pe th rd nds wh
          false) := by
  obtain ⟨sl, dups, fts, unr⟩ := st
  simp only at hslot
  subst hslot
  refine ⟨?_, ?_, ?_, ?_⟩
  · intro hc hf hp
    simp [addDefined, hc, hf, hp]
  · intro hc hf hp
    simp [addDefined, hc, hf, hp]
  · intro hc hf
    simp [addDefined, hc, hf]
  · intro hc
    simp [addDefined, hc]

/-- Witness for C6 (amended): the kept-common case at concrete inputs —
existing common from `lazyB` (priority 2), incoming definition from
`lazyA` (priority 1): null return, slot untouched. -/
theorem claim6_common_witness :
    addDefined cfg0 stCom (some lazyA) none 0 0 false false false false
        false false = .ok none stCom :=
  (claim6_common cfg0 stCom cB lazyA none 0 0 false false false false false
      false rfl).1 rfl rfl (by decide)

/-- Counterexample for C6 as stated: at the same inputs the `Defined` does
**not** win unconditionally — the slot still holds the `CommonSymbol` —
and the returned value is a null pointer, not a pointer to a `Defined`
slot. -/
theorem claim6_counterexample :
    addDefined cfg0 stCom (some lazyA) none 0 0 false false false false
        false false = .ok none stCom ∧
      stCom.slot = some (.common cB) := by
  refine ⟨?_, rfl⟩
  simp [addDefined, stCom, emptyState, lazyA, cB, lazyB]

/-! ## Claim C7 -/

theorem maxRef_left_comm (r a b : RefState) :
    maxRef (maxRef r a) b = maxRef (maxRef r b) a := by
  cases r <;> cases a <;> cases b <;> rfl

theorem maxRef_le_left (r a : RefState) :
    r.toNat ≤ (maxRef r a).toNat := by
  cases r <;> cases a <;> decide

theorem foldReq_le (calls : List (Option InputFile × Bool)) :
    ∀ r : RefState, r.toNat ≤ (foldReq r calls).toNat := by
  induction calls with
  | nil => intro r; exact Nat.le_refl _
  | cons c cs ih =>
    intro r
    exact Nat.le_trans (maxRef_le_left r (reqState c.2))
      (ih (maxRef r (reqState c.2)))

theorem foldReq_perm {l1 l2 : List (Option InputFile × Bool)}
    (h : l1.Perm l2) : ∀ r : RefState, foldReq r l1 = foldReq r l2 := by
  induction h with
  | nil => intro r; rfl
  | cons x _ ih =>
    intro r
    exact ih (maxRef r (reqState x.2))
  | swap x y l =>
    intro r
    show foldReq (maxRef (maxRef r (reqState y.2)) (reqState x.2)) l =
      foldReq (maxRef (maxRef r (reqState x.2)) (reqState y.2)) l
    rw [maxRef_left_comm]
  | trans _ _ ih1 ih2 =>
    intro r
    exact (ih1 r).trans (ih2 r)

theorem addUndefined_undef_slot (st : LinkState) (u : UndefinedSym)
    (file : Option InputFile) (w : Bool)
    (h : st.slot = some (.undefinedS u)) :
    addUndefined st file w =
      { st with slot := some (.undefinedS
          { u with refState := maxRef u.refState (reqState w) }) } := by
  obtain ⟨sl, dups, fts, unr⟩ := st
  simp only at h
  subst h
  simp [addUndefined, reqState]

theorem addUndefined_dylib_slot (st : LinkState) (dy : DylibSym)
    (file : Option InputFile) (w : Bool)
    (h : st.slot = some (.dylib dy)) :
    addUndefined st file w =
      { st with slot := some (.dylib
          { dy with refState := maxRef dy.refState (reqState w) }) } := by
  obtain ⟨sl, dups, fts, unr⟩ := st
  simp only at h
  subst h
  simp [addUndefined, reqState]

theorem runUndefineds_undef (calls : List (Option InputFile × Bool)) :
    ∀ (st : LinkState) (u : UndefinedSym),
      st.slot = some (.undefinedS u) →
      (runUndefineds st calls).slot =
        some (.undefinedS { u with refState := foldReq u.refState calls }) := by
  induction calls with
  | nil =>
    intro st u h
    exact h
  | cons c cs ih =>
    intro st u h
    show (runUndefineds (addUndefined st c.1 c.2) cs).slot = _
    rw [addUndefined_undef_slot st u c.1 c.2 h]
    exact ih
      { st with slot := some (.undefinedS
          { u with refState := maxRef u.refState (reqState c.2) }) }
      { u with refState := maxRef u.refState (reqState c.2) } rfl

theorem runUndefineds_dylib (calls : List (Option InputFile × Bool)) :
    ∀ (st : LinkState) (dy : DylibSym),
      st.slot = some (.dylib dy) →
      (runUndefineds st calls).slot =
        some (.dylib { dy with refState := foldReq dy.refState calls }) := by
  induction calls with
  | nil =>
    intro st dy h
    exact h
  | cons c cs ih =>
    intro st dy h
    show (runUndefineds (addUndefined st c.1 c.2) cs).slot = _
    rw [addUndefined_dylib_slot st dy c.1 c.2 h]
    exact ih
      { st with slot := some (.dylib
          { dy with refState := maxRef dy.refState (reqState c.2) }) }
      { dy with refState := maxRef dy.refState (reqState c.2) } rfl

/-- C7: over a slot holding an `Undefined` or a `DylibSymbol`, any sequence
of `addUndefined` calls leaves the same variant in place with `refState`
equal to the max-fold of the prior state and all requested states
(`foldReq`, the maximum over the lattice `unreferenced < weak < strong`);
the state is monotone non-decreasing, and the result is invariant under
permutation of the call sequence. -/
theorem claim7_refstate_monotone :
    (∀ (st : LinkState) (u : UndefinedSym)
        (calls : List (Option InputFile × Bool)),
      st.slot = some (.undefinedS u) →
      (runUndefineds st calls).slot =
        some (.undefinedS { u with refState := foldReq u.refState calls }) ∧
      u.refState.toNat ≤ (foldReq u.refState calls).toNat) ∧
    (∀ (st : LinkState) (dy : DylibSym)
        (calls : List (Option InputFile × Bool)),
      st.slot = some (.dylib dy) →
      (runUndefineds st calls).slot =
        some (.dylib { dy with refState := foldReq dy.refState calls }) ∧
      dy.refState.toNat ≤ (foldReq dy.refState calls).toNat) ∧
    (∀ (r : RefState) (l1 l2 : List (Option InputFile × Bool)),
      l1.Perm l2 → foldReq r l1 = foldReq r l2) := by
  refine ⟨?_, ?_, ?_⟩
  · intro st u calls h
    exact ⟨runUndefineds_undef calls st u h, foldReq_le calls u.refState⟩
  · intro st dy calls h
    exact ⟨runUndefineds_dylib calls st dy h, foldReq_le calls dy.refState⟩
  · intro r l1 l2 h
    exact foldReq_perm h r

/-- Witness for C7: the weak-then-strong sequence on a weakly-referenced
undefined slot, on the weak dylib slot, and the permutation invariance of
that sequence's fold. -/
theorem claim7_refstate_monotone_witness :
    ((runUndefineds stU callsW).slot =
        some (.undefinedS { u0 with refState := foldReq u0.refState callsW }) ∧
      u0.refState.toNat ≤ (foldReq u0.refState callsW).toNat) ∧
    ((runUndefineds stDy callsW).slot =
        some (.dylib { dyW with refState := foldReq dyW.refState callsW }) ∧
      dyW.refState.toNat ≤ (foldReq dyW.refState callsW).toNat) ∧
    foldReq RefState.unreferenced callsW =
      foldReq RefState.unreferenced callsW2 :=
  ⟨claim7_refstate_monotone.1 stU u0 callsW rfl,
    claim7_refstate_monotone.2.1 stDy dyW callsW rfl,
    claim7_refstate_monotone.2.2 RefState.unreferenced callsW callsW2
      (List.Perm.swap (some objB, false) (some objA, true) [])⟩

/-! ## Claim C8 -/

/-- C8 (amended): `reportPendingUndefinedSymbols` clears its pool after
emission, so an immediate second call emits nothing; but
`reportPendingDuplicateSymbols` does **not** clear the duplicate pool — the
pool is left exactly as it was, and a second call emits the same
diagnostics again. -/
theorem claim8_report_clearing :
    (∀ undefs : List (UndefinedSym × UndefDiag),
      (reportPendingUndefinedSymbols
        (reportPendingUndefinedSymbols undefs).2).1 = []) ∧
    (∀ (cfg : Config) (isLive : DefinedSym → Bool) (pool : List DupRec),
      (reportPendingDuplicateSymbols cfg isLive pool).2 = pool) ∧
    (∀ (cfg : Config) (isLive : DefinedSym → Bool) (pool : List DupRec),
      (reportPendingDuplicateSymbols cfg isLive
          (reportPendingDuplicateSymbols cfg isLive pool).2).1 =
        (reportPendingDuplicateSymbols cfg isLive pool).1) := by
  exact ⟨fun _ => rfl, fun _ _ _ => rfl, fun _ _ _ => rfl⟩

/-- Counterexample for C8 as stated: with one live record in the duplicate
pool, a second consecutive `reportPendingDuplicateSymbols` call still emits
a diagnostic — the second call does not emit nothing. -/
theorem claim8_counterexample :
    ¬ (reportPendingDuplicateSymbols cfg0 alwaysLive
        (reportPendingDuplicateSymbols cfg0 alwaysLive [dupRec0]).2).1 = [] := by
  decide

/-! ## Claim C10 -/

/-- C10: `addDefined` requires a non-null file whenever the existing slot
holds a `DylibSymbol`: the dylib branch reads `file->lazyArchiveMember`
without a null check, so every call with a null file on such a slot — in
particular every `addSynthetic` call, which always passes a null file —
dereferences a null pointer. -/
theorem claim10_null_file_dylib :
    (∀ (cfg : Config) (st : LinkState) (dy : DylibSym)
        (isec : Option InputSec) (value size : Nat) (w pe th rd nds wh : Bool),
      st.slot = some (.dylib dy) →
      addDefined cfg st none isec value size w pe th rd nds wh =
        .nullDeref) ∧
    (∀ (cfg : Config) (st : LinkState) (dy : DylibSym)
        (isec : Option InputSec) (value : Nat) (pe iis rd : Bool),
      st.slot = some (.dylib dy) →
      addSynthetic cfg st isec value pe iis rd = .nullDeref) := by
  constructor
  · intro cfg st dy isec value size w pe th rd nds wh h
    obtain ⟨sl, dups, fts, unr⟩ := st
    simp only at h
    subst h
    simp [addDefined]
  · intro cfg st dy isec value pe iis rd h
    obtain ⟨sl, dups, fts, unr⟩ := st
    simp only at h
    subst h
    simp [addSynthetic, addDefined]

/-- Witness for C10: the synthetic call against the concrete weak dylib
slot crashes in the model. -/
theorem claim10_null_file_dylib_witness :
    addDefined cfg0 stDy none none 0 0 false false false false false false =
        AddRes.nullDeref ∧
      addSynthetic cfg0 stDy none 0 false false false = AddRes.nullDeref :=
  ⟨claim10_null_file_dylib.1 cfg0 stDy dyW none 0 0 false false false false
      false false rfl,
    claim10_null_file_dylib.2 cfg0 stDy dyW none 0 false false false rfl⟩

/-! ## Claim C9 -/

theorem find_sound {α : Type} (p : α → Bool) (l : List α) (a : α)
    (h : l.find? p = some a) : a ∈ l ∧ p a = true := by
  induction l with
  | nil => simp [List.find?] at h
  | cons x xs ih =>
    rw [List.find?] at h
    by_cases hx : p x = true
    · rw [hx] at h
      simp at h
      subst h
      exact ⟨List.mem_cons_self x xs, hx⟩
    · rw [Bool.not_eq_true] at hx
      rw [hx] at h
      obtain ⟨hm, hp⟩ := ih h
      exact ⟨List.mem_cons_of_mem x hm, hp⟩

theorem findSome_sound {α β : Type} (f : α → Option β) (l : List α) (b : β)
    (h : l.findSome? f = some b) : ∃ a, a ∈ l ∧ f a = some b := by
  induction l with
  | nil => simp [List.findSome?] at h
  | cons x xs ih =>
    rw [List.findSome?] at h
    cases hx : f x with
    | some b0 =>
      rw [hx] at h
      exact ⟨x, List.mem_cons_self x xs, hx.trans h⟩
    | none =>
      rw [hx] at h
      obtain ⟨a, ha, hfa⟩ := ih h
      exact ⟨a, List.mem_cons_of_mem x ha, hfa⟩

theorem lookupName_sound (l : List (Name × Symb)) (n : Name) (s : Symb)
    (h : lookupName l n = some s) : ∃ nm, (nm, s) ∈ l := by
  unfold lookupName at h
  cases hf : l.find? (fun p => p.1 = n) with
  | none => rw [hf] at h; simp at h
  | some p =>
    rw [hf] at h
    simp at h
    obtain ⟨hm, _⟩ := find_sound _ _ _ hf
    refine ⟨p.1, ?_⟩
    rw [← h]
    exact hm

theorem suggest_sound (m table : List (Name × Symb)) (n : Name) (s : Symb)
    (h : suggest m table n = some s) :
    (∃ nm, (nm, s) ∈ m) ∨
      ((∃ nm, (nm, s) ∈ table) ∧ isUndef s = false) := by
  unfold suggest at h
  cases hm : lookupName m n with
  | some s0 =>
    rw [hm] at h
    simp only at h
    simp only [Option.some.injEq] at h
    exact Or.inl (h ▸ lookupName_sound m n s0 hm)
  | none =>
    rw [hm] at h
    cases ht : lookupName table n with
    | some s0 =>
      rw [ht] at h
      simp only at h
      by_cases hu : isUndef s0 = true
      · rw [if_pos hu] at h; simp at h
      · rw [if_neg hu] at h
        simp only [Option.some.injEq] at h
        rw [Bool.not_eq_true] at hu
        exact Or.inr ⟨h ▸ lookupName_sound table n s0 ht, h ▸ hu⟩
    | none => rw [ht] at h; simp at h

theorem mem_filtered_locals (locals : List (Name × Symb)) (nm : Name)
    (s : Symb)
    (h : (nm, s) ∈ locals.filter (fun p => isLocalDefined p.2)) :
    (nm, s) ∈ locals ∧ isLocalDefined s = true := by
  rw [List.mem_filter] at h
  exact h

/-- C9 (amended): every symbol returned by `getAlternativeSpelling` is a
file-local non-external `Defined`, or a symbol present in the global table
whose variant is not `Undefined` — except when it is produced by the final
partial-demangle scan over the global table (hint `declareC`), which does
not filter out `Undefined` entries and only guarantees table membership. -/
theorem claim9_suggestion_source (locals table : List (Name × Symb))
    (name : Name) (s : Symb) (h : Hint)
    (hres : getAlternativeSpelling locals table name = some (s, h)) :
    (∃ nm, (nm, s) ∈ locals ∧ isLocalDefined s = true) ∨
      ((∃ nm, (nm, s) ∈ table) ∧
        (isUndef s = false ∨ h = Hint.declareC)) := by
  unfold getAlternativeSpelling at hres
  simp only at hres
  split at hres
  case _ s0 hfind =>
    simp only [Option.some.injEq, Prod.mk.injEq] at hres
    obtain ⟨hs, hh⟩ := hres
    rw [← hs]
    obtain ⟨cand, _, hsg⟩ := findSome_sound _ _ _ hfind
    rcases suggest_sound _ _ _ _ hsg with hl | ⟨ht, hu⟩
    · obtain ⟨nm, hnm⟩ := hl
      obtain ⟨hin, hld⟩ := mem_filtered_locals locals nm s0 hnm
      exact Or.inl ⟨nm, hin, hld⟩
    · exact Or.inr ⟨ht, Or.inl hu⟩
  case _ hfind =>
  split at hres
  case _ p hciL =>
    simp only [Option.some.injEq, Prod.mk.injEq] at hres
    obtain ⟨hs, hh⟩ := hres
    rw [← hs]
    obtain ⟨hin, _⟩ := find_sound _ _ _ hciL
    obtain ⟨hmem, hld⟩ := mem_filtered_locals locals p.1 p.2
      (by rw [show (p.1, p.2) = p from rfl]; exact hin)
    exact Or.inl ⟨p.1, hmem, hld⟩
  case _ hciL =>
  split at hres
  case _ p hciG =>
    simp only [Option.some.injEq, Prod.mk.injEq] at hres
    obtain ⟨hs, hh⟩ := hres
    rw [← hs]
    obtain ⟨hin, hp⟩ := find_sound _ _ _ hciG
    rw [Bool.and_eq_true, Bool.not_eq_true'] at hp
    refine Or.inr ⟨⟨p.1, ?_⟩, Or.inl hp.1⟩
    rw [show (p.1, p.2) = p from rfl]
    exact hin
  case _ hciG =>
  split at hres
  · -- the mangled-reference branch
    split at hres
    case _ fn hdm =>
      split at hres
      case _ s0 hsg =>
        simp only [Option.some.injEq, Prod.mk.injEq] at hres
        obtain ⟨hs, hh⟩ := hres
        rw [← hs]
        rcases suggest_sound _ _ _ _ hsg with hl | ⟨ht, hu⟩
        · obtain ⟨nm, hnm⟩ := hl
          obtain ⟨hin, hld⟩ := mem_filtered_locals locals nm s0 hnm
          exact Or.inl ⟨nm, hin, hld⟩
        · exact Or.inr ⟨ht, Or.inl hu⟩
      case _ => simp at hres
    case _ => simp at hres
  · -- the declare-as-C branch
    split at hres
    case _ p hfl =>
      simp only [Option.some.injEq, Prod.mk.injEq] at hres
      obtain ⟨hs, hh⟩ := hres
      rw [← hs]
      obtain ⟨hin, _⟩ := find_sound _ _ _ hfl
      obtain ⟨hmem, hld⟩ := mem_filtered_locals locals p.1 p.2
        (by rw [show (p.1, p.2) = p from rfl]; exact hin)
      exact Or.inl ⟨p.1, hmem, hld⟩
    case _ hfl =>
    split at hres
    case _ p hfg =>
      simp only [Option.some.injEq, Prod.mk.injEq] at hres
      obtain ⟨hs, hh⟩ := hres
      rw [← hs]
      obtain ⟨hin, _⟩ := find_sound _ _ _ hfg
      refine Or.inr ⟨⟨p.1, ?_⟩, Or.inr hh.symm⟩
      rw [show (p.1, p.2) = p from rfl]
      exact hin
    case _ => simp at hres

/-- Witness for C9 (amended): the concrete suggestion produced for the
reference name against the table entry is covered by the amended
disjunction. -/
theorem claim9_suggestion_source_witness :
    (∃ nm, (nm, Symb.undefinedS uZ) ∈ ([] : List (Name × Symb)) ∧
        isLocalDefined (Symb.undefinedS uZ) = true) ∨
      ((∃ nm, (nm, Symb.undefinedS uZ) ∈ tableC9) ∧
        (isUndef (Symb.undefinedS uZ) = false ∨
          Hint.declareC = Hint.declareC)) :=
  claim9_suggestion_source [] tableC9 fName (Symb.undefinedS uZ)
    Hint.declareC (by decide)

/-- Counterexample for C9 as stated: with no file-local symbols and a
global table whose only entry is the **Undefined** mangled symbol `zName`,
the extern-C partial-demangle scan still suggests that entry — the
suggested candidate exists only as an `Undefined` symbol. -/
theorem claim9_counterexample :
    getAlternativeSpelling [] tableC9 fName =
        some (Symb.undefinedS uZ, Hint.declareC) ∧
      isUndef (Symb.undefinedS uZ) = true := by
  constructor
  · decide
  · rfl
